import Mathlib

/-!
Verification of the SmallVM core against its specification: the object
memory (src/vm/mem.c), the list and string data primitives (dataPrims),
the micro:bit radio primitives (src/vm/radioPrims.c) and the host runtime
adapter (src/ide/MicroBlocksRuntime.gp).  Every C or GP function a property
depends on is translated into an executable Lean definition.  Machine words
are modelled as Int (tagged object words) or Nat (byte values and addresses
counted in word units); fallible operations return an explicit result type.
-/

namespace SmallVM

/-! ## Tagged value model (mem.h conventions)

The low bit of a word distinguishes tagged small integers (bit set) from
object references (bit clear).  The singletons used by the data primitives
are falseObj = 0 and trueObj = 4; zeroObj abbreviates int2obj 0. -/

/-- Tagging a small integer: int2obj(n) = (n << 1) | 1. -/
def int2obj (n : Int) : Int := 2 * n + 1

/-- Untagging: obj2int(v) is an arithmetic shift right by one bit, which is
floor division by 2 on mathematical integers. -/
def obj2int (v : Int) : Int := Int.fdiv v 2

/-- Integer test isInt(v): the low bit of the word is set. -/
def isInt (v : Int) : Bool := v % 2 == 1

/-- The false singleton (object reference 0). -/
def falseObj : Int := 0

/-- The true singleton (object reference 4). -/
def trueObj : Int := 4

/-- The tagged integer zero, used by the list primitives to clear slots. -/
def zeroObj : Int := int2obj 0

/-! ## Object memory (src/vm/mem.c)

Addresses are counted in words.  The heap is a triple of pointers together
with the word contents of the arena. -/

/-- Number of header words preceding the data words of every heap object. -/
def HEADER_WORDS : Nat := 1

/-- Modelled from the spec: mem.h is not among the sources; the header word
packs the class identifier and the data word count (the exact packing is
irrelevant to every property below, only that a fixed header word is
written at offset 0 of the new object). -/
def HEADER (classID wordCount : Nat) : Int := Int.ofNat (wordCount * 16 + classID % 16)

/-- Heap state of mem.c: the three pointers memStart, freeStart and memEnd
plus the contents of memory, addressed in word units. -/
structure Heap where
  memStart : Nat
  freeStart : Nat
  memEnd : Nat
  mem : Nat → Int

/-- Result of newObj: either a new object address together with the updated
heap, or a panic (gpPanic prints the message and loops forever); the heap at
the moment of the panic is recorded so that its free pointer can be
observed. -/
inductive AllocResult where
  | ok (h : Heap) (obj : Nat)
  | panic (msg : String) (h : Heap)

/-- Write the word v at every address a with lo <= a < hi. -/
def fillRange (m : Nat → Int) (lo hi : Nat) (v : Int) : Nat → Int :=
  fun a => if lo ≤ a ∧ a < hi then v else m a

/-- Translation of newObj from src/vm/mem.c: the object starts at freeStart;
freeStart is advanced by HEADER_WORDS + wordCount; if the advanced pointer
reaches or passes memEnd the VM panics with "Out of memory!"; otherwise all
allocated words are filled with fill and word 0 is overwritten with the
packed header. -/
def newObj (classID wordCount : Nat) (fill : Int) (h : Heap) : AllocResult :=
  let obj := h.freeStart
  let free2 := h.freeStart + (HEADER_WORDS + wordCount)
  if h.memEnd ≤ free2 then
    .panic "Out of memory!" { h with freeStart := free2 }
  else
    let m1 := fillRange h.mem obj free2 fill
    let m2 := fun a => if a = obj then HEADER classID wordCount else m1 a
    .ok { h with freeStart := free2, mem := m2 } obj

/-- Translation of memClear from src/vm/mem.c. -/
def memClear (h : Heap) : Heap := { h with freeStart := h.memStart }

/-- True when an allocation ended in gpPanic. -/
def allocPanicked : AllocResult → Bool
  | .panic _ _ => true
  | .ok _ _ => false

/-- Free pointer observed after an allocation attempt. -/
def allocFree : AllocResult → Nat
  | .panic _ h => h.freeStart
  | .ok h _ => h.freeStart

/-- Concrete 4-word arena used to exercise the exhaustion path: the free
pointer is at 16 and the arena ends at word 20. -/
def heapA : Heap := ⟨16, 16, 20, fun _ => 0⟩

/-! ## List and string data primitives (dataPrims)

A growable List object is represented by its data words: word 0 holds the
tagged item count, words 1 .. WORDS - 1 are the item slots, so the reserved
capacity is WORDS - 1, where WORDS is the data word count from the object
header (here the length of the word list). -/

/-- Error codes passed to fail() by the data and radio primitives
(interp.h is not among the sources, so the codes are symbolic). -/
inductive ErrCode where
  | needsListError
  | indexOutOfRangeError
  | needsIntegerIndexError
  | needsIntegerError
  | byteArrayStoreError
  | notEnoughArguments
deriving DecidableEq

/-- Data words of a List object. -/
structure ListObj where
  words : List Int
deriving DecidableEq

/-- FIELD(obj, i): the data word at index i (reads out of bounds return 0,
they never occur on well-formed calls). -/
def FIELD (l : ListObj) (i : Nat) : Int := l.words.getD i 0

/-- Index argument passed to a data primitive: a tagged small integer, a
string object, or an object of any other class. -/
inductive Arg where
  | int (n : Int)
  | str (s : String)
  | other
deriving DecidableEq

/-- Loop writing value into n consecutive data words from index i onward,
the shape of the for loops in dataPrims (writes past the end are dropped;
they never occur on well-formed calls). -/
def setRange (ws : List Int) (v : Int) (i : Nat) : Nat → List Int
  | 0 => ws
  | n + 1 => setRange (ws.set i v) v (i + 1) n

/-- Loop of primListDelete: n times, copy the word at index i + 1 down to
index i and advance i. -/
def shiftLoop (ws : List Int) (i : Nat) : Nat → List Int
  | 0 => ws
  | n + 1 => shiftLoop (ws.set i (ws.getD (i + 1) 0)) (i + 1) n

/-- Loop of primMakeList copying the arguments into fields i, i+1, ... -/
def copyArgs : List Int → List Int → Nat → List Int
  | ws, [], _ => ws
  | ws, a :: rest, i => copyArgs (ws.set i a) rest (i + 1)

/-- Translation of primNewArray from dataPrims: capacity is the first
argument when it is a tagged integer (2 otherwise), raised to the minimum
capacity 2; the object has capacity + 1 data words filled with tagged zero,
and then field 0 is overwritten with the tagged capacity. -/
def primNewArray (args : List Int) : ListObj :=
  let minCapacity : Int := 2
  let capacity : Int :=
    match args with
    | a :: _ => if isInt a then obj2int a else minCapacity
    | [] => minCapacity
  let capacity : Int := if capacity < minCapacity then minCapacity else capacity
  ⟨(List.replicate (capacity.toNat + 1) (int2obj 0)).set 0 (int2obj capacity)⟩

/-- Translation of primMakeList from dataPrims: argCount + 1 data words
filled with falseObj, field 0 set to the tagged argument count, and the
arguments copied into fields 1 .. argCount. -/
def primMakeList (args : List Int) : ListObj :=
  ⟨copyArgs ((List.replicate (args.length + 1) falseObj).set 0 (int2obj args.length)) args 1⟩

/-- Translation of the ListType branch of primArrayFill from dataPrims: the
count (clamped to WORDS - 1) selects the first loop bound, and the second
loop then writes value into every raw word from HEADER_WORDS + 1 up to
WORDS + HEADER_WORDS - 1, i.e. into every capacity slot 1 .. WORDS - 1
of the list, beyond the current count. -/
def primArrayFill (l : ListObj) (value : Int) : ListObj :=
  let n := l.words.length
  let count : Int := obj2int (FIELD l 0)
  let count : Int := if (n : Int) ≤ count then (n : Int) - 1 else count
  let ws1 := setRange l.words value 1 count.toNat
  let ws2 := setRange ws1 value 1 (n - 1)
  ⟨ws2⟩

/-- Translation of the ListType branch of primArrayAtPut from dataPrims.
Result: the updated list and the error code passed to fail, if any. -/
def primArrayAtPut (idx : Arg) (l : ListObj) (value : Int) : ListObj × Option ErrCode :=
  let n := l.words.length
  let count : Int := obj2int (FIELD l 0)
  let count : Int := if (n : Int) ≤ count then (n : Int) - 1 else count
  if idx = .str "all" then
    (⟨setRange l.words value 1 count.toNat⟩, none)
  else
    match idx with
    | .int i =>
        if i < 1 ∨ count < i then (l, some .indexOutOfRangeError)
        else (⟨l.words.set i.toNat value⟩, none)
    | .str s =>
        if s = "last" then (⟨l.words.set count.toNat value⟩, none)
        else (l, some .needsIntegerIndexError)
    | .other => (l, some .needsIntegerIndexError)

/-- Translation of primListDelete from dataPrims (the argument is known to
be a List; a non-List argument fails needsListError without touching it). -/
def primListDelete (idx : Arg) (l : ListObj) : ListObj × Option ErrCode :=
  let n := l.words.length
  let count : Int := obj2int (FIELD l 0)
  let count : Int := if (n : Int) ≤ count then (n : Int) - 1 else count
  if idx = .str "all" then
    (⟨setRange l.words zeroObj 0 (count + 1).toNat⟩, none)
  else if idx = .str "last" then
    if count ≠ 0 then
      (⟨(l.words.set count.toNat zeroObj).set 0 (int2obj (count - 1))⟩, none)
    else (l, none)
  else
    match idx with
    | .int i =>
        if i < 1 ∨ count < i then (l, some .indexOutOfRangeError)
        else
          let ws := shiftLoop l.words i.toNat (count - i).toNat
          (⟨(ws.set count.toNat zeroObj).set 0 (int2obj (count - 1))⟩, none)
    | _ => (l, some .needsIntegerError)

/-- Modelled from the spec: resizeObj is called by primListAddLast but its
definition (mem.c of the device build) is not among the sources.  Per
section 4.2 of the spec it grows the object to the new word count keeping
the existing data words; the new reserve words are filled with tagged zero,
as the List invariant of section 3 requires of reserved capacity. -/
def resizeObj (l : ListObj) (newWordCount : Nat) : ListObj :=
  if newWordCount ≤ l.words.length then ⟨l.words.take newWordCount⟩
  else ⟨l.words ++ List.replicate (newWordCount - l.words.length) zeroObj⟩

/-- Translation of primListAddLast from dataPrims: when the count has
reached the capacity the list is grown by count / 3 words, clamped to at
least 3 and at most 100; the item is then appended if there is room. -/
def primListAddLast (item : Int) (l : ListObj) : ListObj × Option ErrCode :=
  let count : Int := obj2int (FIELD l 0)
  let l2 :=
    if (l.words.length : Int) - 1 ≤ count then
      let growBy : Int := Int.tdiv count 3
      let growBy : Int := if growBy < 4 then 3 else growBy
      let growBy : Int := if 100 < growBy then 100 else growBy
      resizeObj l (l.words.length + growBy.toNat)
    else l
  if count < (l2.words.length : Int) - 1 then
    (⟨(l2.words.set (count + 1).toNat item).set 0 (int2obj (count + 1))⟩, none)
  else (l2, none)

/-- List invariant of the spec (section 3 and section 8, invariant 2):
field 0 is a tagged count with 0 <= count <= capacity = WORDS - 1, and
every slot strictly beyond the count holds the tagged zero. -/
def listInv (l : ListObj) : Prop :=
  isInt (FIELD l 0) = true ∧
  0 ≤ obj2int (FIELD l 0) ∧
  obj2int (FIELD l 0) + 1 ≤ (l.words.length : Int) ∧
  ∀ i : Nat, i < l.words.length → obj2int (FIELD l 0) < (i : Int) → FIELD l i = zeroObj

instance (l : ListObj) : Decidable (listInv l) := by
  unfold listInv
  infer_instance

/-! ### Strings

A string object is modelled by its content bytes; the NUL terminator is the
first position past the end, so reads there return 0.  Bytes are unsigned
values 0 .. 255, as on the ARM targets the VM firmware runs on. -/

/-- Byte of a string at a scanner position. -/
def byteAt (s : List Nat) (i : Nat) : Nat := s.getD i 0

/-- Byte size of a string object: stringSize in dataPrims scans the last
data word for the NUL terminator, yielding the content byte count. -/
def stringSize (s : List Nat) : Nat := s.length

/-- While loop of nextUTF8 skipping continuation bytes (bytes whose top two
bits are 10); the fuel is the distance to the end of the content, where the
terminator byte 0 stops the loop anyway. -/
def skipContinuationBytes (s : List Nat) (i : Nat) : Nat → Nat
  | 0 => i
  | fuel + 1 =>
      if byteAt s i &&& 0xC0 = 0x80 then skipContinuationBytes s (i + 1) fuel else i

/-- Translation of nextUTF8 from dataPrims: at the terminator stay put; a
byte below 128 is a single-byte character; otherwise advance once over a
lead byte (top two bits 11) and then over all continuation bytes. -/
def nextUTF8 (s : List Nat) (i : Nat) : Nat :=
  if byteAt s i = 0 then i
  else if byteAt s i < 128 then i + 1
  else
    let j := if byteAt s i &&& 0xC0 = 0xC0 then i + 1 else i
    skipContinuationBytes s j (s.length - j)

/-- While loop of countUTF8; the fuel s.length suffices because nextUTF8
advances by at least one byte whenever the current byte is nonzero. -/
def countUTF8Loop (s : List Nat) (i : Nat) : Nat → Nat
  | 0 => 0
  | fuel + 1 => if byteAt s i = 0 then 0 else countUTF8Loop s (nextUTF8 s i) fuel + 1

/-- Translation of countUTF8 from dataPrims. -/
def countUTF8 (s : List Nat) : Nat := countUTF8Loop s 0 s.length

/-- Translation of the StringType branch of primLength from dataPrims. -/
def primLengthString (s : List Nat) : Int := int2obj (countUTF8 s)

/-- Modelled from the spec: newStringFromBytes is called by primArrayAt but
its definition (mem.c of the device build) is not among the sources; it
creates a fresh string object from the given number of bytes starting at
the given pointer, here an offset into the source bytes. -/
def newStringFromBytes (s : List Nat) (offset count : Nat) : List Nat :=
  (s.drop offset).take count

/-- Translation of the StringType branch of primArrayAt from dataPrims:
count is the byte size of the string; an integer index i in 1 .. count (or
the strings "random" and "last") selects a byte offset, and the result is a
fresh string of exactly one byte, the byte at offset i - 1.  rnd stands for
the value of rand() in the "random" branch. -/
def primArrayAtString (idx : Arg) (s : List Nat) (rnd : Nat) : Except ErrCode (List Nat) :=
  let count := stringSize s
  match idx with
  | .int i =>
      if i < 1 ∨ (count : Int) < i then .error .indexOutOfRangeError
      else .ok (newStringFromBytes s (i.toNat - 1) 1)
  | .str t =>
      if t = "random" then .ok (newStringFromBytes s (rnd % count) 1)
      else if t = "last" then .ok (newStringFromBytes s (count - 1) 1)
      else .error .needsIntegerIndexError
  | .other => .error .needsIntegerIndexError

/-- UTF-8 bytes of the test string of the spec: h, the two-byte character
e-acute (0xC3 0xA9), l, l, o. -/
def helloBytes : List Nat := [0x68, 0xC3, 0xA9, 0x6C, 0x6C, 0x6F]

/-! ## Host runtime adapter (src/ide/MicroBlocksRuntime.gp) -/

/-- Ping bookkeeping of the SmallRuntime object: the two millisecond
time stamps (nil until first set, as in GP) and whether the serial port is
non-nil and open. -/
structure PingState where
  pingSentMSecs : Option Int
  lastPingRecvMSecs : Option Int
  portOpen : Bool

/-- Translation of connectionStatus from MicroBlocksRuntime.gp.  The result
pairs the returned status string with the updated state (a ping may be sent,
updating pingSentMSecs; when the port is absent or closed the port is
cleared).  now stands for msecsSinceStart. -/
def connectionStatus (now : Int) (st : PingState) : String × PingState :=
  let pingSendInterval : Int := 2000
  let pingSent := st.pingSentMSecs.getD 0
  let lastRecv := st.lastPingRecvMSecs.getD 0
  if !st.portOpen then
    ("not connected",
     { pingSentMSecs := some pingSent, lastPingRecvMSecs := some lastRecv, portOpen := false })
  else
    let st2 : PingState :=
      if pingSendInterval < now - pingSent then
        { pingSentMSecs := some now, lastPingRecvMSecs := some lastRecv, portOpen := true }
      else
        { pingSentMSecs := some pingSent, lastPingRecvMSecs := some lastRecv, portOpen := true }
    let msecsSinceLastPing := now - lastRecv
    if msecsSinceLastPing < pingSendInterval + 200 then
      ("connected", st2)
    else
      ("board not responding", st2)

/-! ## Wire protocol (src/ide/MicroBlocksRuntime.gp) -/

/-- A wire message: opcode, chunk ID and, for long messages, the body byte
list (none encodes a short message). -/
structure Msg where
  opcode : Nat
  chunkID : Nat
  body : Option (List Nat)
deriving DecidableEq

/-- Translation of sendMsg from MicroBlocksRuntime.gp: a short message is
the 3 bytes 250, opcode, chunkID; a long message is 251, opcode, chunkID,
the 16-bit little-endian field byteCount = body length + 1 (covering the
terminator), the body bytes, and the terminator byte 254. -/
def sendMsg (m : Msg) : List Nat :=
  match m.body with
  | none => [250, m.opcode, m.chunkID]
  | some byteList =>
      let byteCount := byteList.length + 1
      [251, m.opcode, m.chunkID, byteCount &&& 255, (byteCount >>> 8) &&& 255]
        ++ byteList ++ [254]

/-- Receive-loop state of the host: the rolling receive buffer and the
frames dispatched to handleMessage so far, in order. -/
structure HostState where
  recvBuf : List Nat
  dispatched : List (List Nat)
deriving DecidableEq

/-- Translation of processMessages2 from MicroBlocksRuntime.gp: append the
newly read bytes (when the read returned any) to the buffer; with fewer
than 3 bytes wait for more; a buffer headed by 250 dispatches its first 3
bytes, one headed by 251 dispatches 5 + bodyBytes bytes once they have all
arrived, where bodyBytes is the little-endian 16-bit field at bytes 4 and
5; any other head byte discards the entire buffer. -/
def processMessages2 (s : Option (List Nat)) (st : HostState) : HostState :=
  let buf := match s with
    | some bytes => st.recvBuf ++ bytes
    | none => st.recvBuf
  if buf.length < 3 then { st with recvBuf := buf }
  else
    let firstByte := buf.getD 0 0
    if firstByte = 250 then
      { recvBuf := buf.drop 3, dispatched := st.dispatched ++ [buf.take 3] }
    else if firstByte = 251 then
      if buf.length < 5 then { st with recvBuf := buf }
      else
        let bodyBytes := (buf.getD 4 0) <<< 8 ||| buf.getD 3 0
        if buf.length < 5 + bodyBytes then { st with recvBuf := buf }
        else
          { recvBuf := buf.drop (5 + bodyBytes),
            dispatched := st.dispatched ++ [buf.take (5 + bodyBytes)] }
    else
      { recvBuf := [], dispatched := st.dispatched }

/-- Field extraction applied by handleMessage to a dispatched frame: the
opcode is the second byte and the chunk ID the third; a long frame (head
byte 251) carries a body of bodyBytes - 1 bytes from the sixth byte on,
the final counted byte being the 254 terminator. -/
def parseFrame (frame : List Nat) : Msg :=
  if frame.getD 0 0 = 250 then ⟨frame.getD 1 0, frame.getD 2 0, none⟩
  else
    let bodyBytes := (frame.getD 4 0) <<< 8 ||| frame.getD 3 0
    ⟨frame.getD 1 0, frame.getD 2 0, some ((frame.drop 5).take (bodyBytes - 1))⟩

/-! ## Chunk ID assignment (src/ide/MicroBlocksRuntime.gp)

The chunkIDs dictionary maps blocks (identified here by numbers) to their
entry (array id aBlock), modelled by its id.  GP dictionaries are modelled
as insertion-ordered key-value lists without duplicate keys; count is the
number of entries. -/

/-- Dictionary lookup (at chunkIDs aBlock nil). -/
def dictGet (d : List (Nat × Nat)) (k : Nat) : Option Nat :=
  (d.find? (fun p => p.1 == k)).map (fun p => p.2)

/-- Translation of chunkIdFor from MicroBlocksRuntime.gp: a block already
present returns its recorded id; a new block is assigned
id = count chunkIDs, the current number of entries, and inserted. -/
def chunkIdFor (b : Nat) (d : List (Nat × Nat)) : Nat × List (Nat × Nat) :=
  match dictGet d b with
  | some cid => (cid, d)
  | none => (d.length, d ++ [(b, d.length)])

/-- Translation of deleteChunkForBlock from MicroBlocksRuntime.gp, host
side: the entry of the block, if any, is removed from the dictionary (and a
deleteChunk message is sent to the board, which does not affect the
mapping). -/
def deleteChunkForBlock (b : Nat) (d : List (Nat × Nat)) : List (Nat × Nat) :=
  d.filter (fun p => p.1 != b)

/-- Saving a sequence of blocks, each assigned an id via chunkIdFor as
saveChunk does. -/
def saveBlocks (bs : List Nat) (d : List (Nat × Nat)) : List (Nat × Nat) :=
  bs.foldl (fun d b => (chunkIdFor b d).2) d

/-! ## Radio primitives (src/vm/radioPrims.c) -/

/-- Modelled from the spec: the class id of String objects (mem.h is not
among the sources); its value is irrelevant to every property below. -/
def StringClass : Nat := 2

/-- MakeCode packet type: integer payload. -/
def MAKECODE_PACKET_INTEGER : Nat := 0

/-- MakeCode packet type: string-integer pair payload. -/
def MAKECODE_PACKET_PAIR : Nat := 1

/-- MakeCode packet type: string payload. -/
def MAKECODE_PACKET_STRING : Nat := 2

/-- MakeCode packet type: double payload. -/
def MAKECODE_PACKET_DOUBLE : Nat := 4

/-- MakeCode packet type: string-double pair payload. -/
def MAKECODE_PACKET_DOUBLE_PAIR : Nat := 5

/-- Hardware configuration touched by the radio setup functions: the lazy
initialization flag, the group prefix (PREFIX0), the transmit power
(TXPOWER, a signed dBm value), the channel (FREQUENCY) and whether the
receiver is enabled (startReceiving / disableRadio). -/
structure RadioConfig where
  radioInitialized : Bool
  prefix0 : Nat
  txPower : Int
  frequency : Nat
  receiving : Bool
deriving DecidableEq

/-- Translation of initializeRadio (its configuration-relevant effects): on
first use install the defaults, power 0, frequency 7, group prefix 0, and
enter receive mode; on later calls do nothing. -/
def initRadio (c : RadioConfig) : RadioConfig :=
  if c.radioInitialized then c
  else { radioInitialized := true, prefix0 := 0, txPower := 0, frequency := 7, receiving := true }

/-- Translation of setGroup from radioPrims.c: out-of-range group IDs
return before initialization, changing nothing. -/
def setGroup (groupID : Int) (c : RadioConfig) : RadioConfig :=
  if groupID < 0 ∨ 255 < groupID then c
  else
    let c := initRadio c
    { c with prefix0 := groupID.toNat }

/-- Transmit power table of setPower (micro:bit DAL levels). -/
def powerLevels : List Int := [-30, -20, -16, -12, -8, -4, 0, 4]

/-- Translation of setPower from radioPrims.c. -/
def setPower (level : Int) (c : RadioConfig) : RadioConfig :=
  if level < 0 ∨ 7 < level then c
  else
    let c := initRadio c
    { c with txPower := powerLevels.getD level.toNat 0 }

/-- Translation of setChannel from radioPrims.c: the radio is disabled,
retuned and reenabled, so the net configuration change is the frequency. -/
def setChannel (channel : Int) (c : RadioConfig) : RadioConfig :=
  if channel < 0 ∨ 83 < channel then c
  else
    let c := initRadio c
    { c with frequency := channel.toNat, receiving := true }

/-- Translation of primSetGroup from radioPrims.c: setGroup is applied only
when an argument is present and is a tagged integer.  The second component
records the error code passed to fail, which these primitives never do. -/
def primSetGroup (args : List Int) (c : RadioConfig) : RadioConfig × Option ErrCode :=
  match args with
  | a :: _ => if isInt a then (setGroup (obj2int a) c, none) else (c, none)
  | [] => (c, none)

/-- Translation of primSetPower from radioPrims.c. -/
def primSetPower (args : List Int) (c : RadioConfig) : RadioConfig × Option ErrCode :=
  match args with
  | a :: _ => if isInt a then (setPower (obj2int a) c, none) else (c, none)
  | [] => (c, none)

/-- Translation of primSetChannel from radioPrims.c. -/
def primSetChannel (args : List Int) (c : RadioConfig) : RadioConfig × Option ErrCode :=
  match args with
  | a :: _ => if isInt a then (setChannel (obj2int a) c, none) else (c, none)
  | [] => (c, none)

/-- State read and written by receiveMakeCodeMessage: the three received
value variables, the 32-byte body of the statically allocated
receivedString object together with its header word, and the heap free
pointer, which the function never touches (the extracted string lives
outside the arena). -/
structure RadioMsgState where
  receivedMessageType : Int
  receivedInteger : Int
  stringBody : List Nat
  stringHeader : Int
  heapFreeStart : Nat
deriving DecidableEq

/-- Copy loop of receiveMakeCodeMessage writing n bytes of the packet
(from srcOff on) into the destination (from dstOff on). -/
def copyBytes (dst src : List Nat) (srcOff dstOff : Nat) : Nat → List Nat
  | 0 => dst
  | n + 1 => copyBytes (dst.set dstOff (src.getD srcOff 0)) src (srcOff + 1) (dstOff + 1) n

/-- Signed 32-bit value assembled from 4 little-endian payload bytes, as
(p3 << 24) | (p2 << 16) | (p1 << 8) | p0 lands in a 32-bit int. -/
def int32FromBytes (b0 b1 b2 b3 : Nat) : Int :=
  let u := (b3 <<< 24) ||| (b2 <<< 16) ||| (b1 <<< 8) ||| b0
  if u < 2147483648 then (u : Int) else (u : Int) - 4294967296

/-- Raw string length byte of a typed MakeCode payload (0 for the types
that carry no string). -/
def makeCodeStringLen (packet : List Nat) : Nat :=
  let msgType := packet.getD 4 0
  if msgType = MAKECODE_PACKET_PAIR then packet.getD 17 0
  else if msgType = MAKECODE_PACKET_STRING then packet.getD 13 0
  else if msgType = MAKECODE_PACKET_DOUBLE_PAIR then packet.getD 21 0
  else 0

/-- Byte offset of the string payload of a typed MakeCode packet. -/
def makeCodeStringSrc (packet : List Nat) : Nat :=
  let msgType := packet.getD 4 0
  if msgType = MAKECODE_PACKET_PAIR then 18
  else if msgType = MAKECODE_PACKET_STRING then 14
  else if msgType = MAKECODE_PACKET_DOUBLE_PAIR then 22
  else 0

/-- Translation of receiveMakeCodeMessage from radioPrims.c, applied to a
packet already dequeued by receivePacket.  The double payloads (types 4 and
5) round their float64 to an int via rint; that rounding is abstracted by
the parameter rint64 on the 8 payload bytes, floating point itself being
outside the model.  Returns the C return value (was the packet a MakeCode
frame) and the updated state. -/
def receiveMakeCodeMessage (rint64 : List Nat → Int) (packet : List Nat)
    (st : RadioMsgState) : Bool × RadioMsgState :=
  let len := packet.getD 0 0
  if len < 12 ∨ packet.getD 1 0 ≠ 1 ∨ packet.getD 3 0 ≠ 1 then (false, st)
  else
    let st := { st with receivedInteger := 0, stringBody := st.stringBody.set 0 0 }
    let msgType := packet.getD 4 0
    let receivedInt : Int :=
      if msgType = MAKECODE_PACKET_INTEGER ∨ msgType = MAKECODE_PACKET_PAIR then
        int32FromBytes (packet.getD 13 0) (packet.getD 14 0)
          (packet.getD 15 0) (packet.getD 16 0)
      else if msgType = MAKECODE_PACKET_DOUBLE ∨ msgType = MAKECODE_PACKET_DOUBLE_PAIR then
        rint64 ((packet.drop 13).take 8)
      else 0
    let stringLength := makeCodeStringLen packet
    let stringLength := if 19 < stringLength then 19 else stringLength
    let body := copyBytes st.stringBody packet (makeCodeStringSrc packet) 0 stringLength
    let body := body.set stringLength 0
    (true, { st with
               receivedMessageType := (msgType : Int),
               receivedInteger := receivedInt,
               stringBody := body,
               stringHeader := HEADER StringClass ((stringLength + 4) / 4) })

end SmallVM

namespace SmallVM

/-! ## Theorems -/

/-! ### Basic facts about tags and list updates -/

/-- Tagged integers have the low bit set. -/
theorem isInt_int2obj (n : Int) : isInt (int2obj n) = true := by
  simp only [isInt, int2obj, beq_iff_eq]
  omega

/-- Untagging a tagged integer recovers it. -/
theorem obj2int_int2obj (n : Int) : obj2int (int2obj n) = n := by
  simp only [obj2int, int2obj, Int.fdiv_eq_ediv _ (by omega : (0:Int) ≤ 2)]
  omega

/-- Tagging an untagged odd word recovers it. -/
theorem int2obj_obj2int (v : Int) (h : isInt v = true) : int2obj (obj2int v) = v := by
  simp only [isInt, beq_iff_eq] at h
  simp only [obj2int, int2obj, Int.fdiv_eq_ediv _ (by omega : (0:Int) ≤ 2)]
  omega

/-- Reading a list after a single update. -/
theorem getD_set (ws : List Int) (i : Nat) (v : Int) (j : Nat) :
    (ws.set i v).getD j 0 = if i = j ∧ j < ws.length then v else ws.getD j 0 := by
  by_cases hij : i = j
  · subst hij
    by_cases hlen : i < ws.length
    · simp [List.getD_eq_getElem?_getD, List.getElem?_set, hlen]
    · have hn : ws[i]? = none := by
        rw [List.getElem?_eq_none_iff]
        omega
      simp [List.getD_eq_getElem?_getD, List.getElem?_set, hlen, hn]
  · simp [List.getD_eq_getElem?_getD, List.getElem?_set_ne hij, hij]

/-- Reading a replicated list. -/
theorem getD_replicate (n : Nat) (v : Int) (i : Nat) :
    (List.replicate n v).getD i 0 = if i < n then v else 0 := by
  simp only [List.getD_eq_getElem?_getD, List.getElem?_replicate]
  split_ifs <;> rfl

/-- Reading the left part of an appended list. -/
theorem getD_append_left (l1 l2 : List Int) (i : Nat) (h : i < l1.length) :
    (l1 ++ l2).getD i 0 = l1.getD i 0 := by
  simp [List.getD_eq_getElem?_getD, List.getElem?_append_left h]

/-- Reading the right part of an appended list. -/
theorem getD_append_right (l1 l2 : List Int) (i : Nat) (h : l1.length ≤ i) :
    (l1 ++ l2).getD i 0 = l2.getD (i - l1.length) 0 := by
  simp [List.getD_eq_getElem?_getD, List.getElem?_append_right h]

/-- setRange keeps the length. -/
theorem setRange_length (v : Int) :
    ∀ (n : Nat) (ws : List Int) (i : Nat), (setRange ws v i n).length = ws.length := by
  intro n
  induction n with
  | zero => intro ws i; rfl
  | succ n ih => intro ws i; rw [setRange, ih, List.length_set]

/-- Effect of setRange on a single position. -/
theorem setRange_getD (v : Int) :
    ∀ (n : Nat) (ws : List Int) (i j : Nat),
      (setRange ws v i n).getD j 0 =
        if i ≤ j ∧ j < i + n ∧ j < ws.length then v else ws.getD j 0 := by
  intro n
  induction n with
  | zero =>
      intro ws i j
      have h : ¬ (i ≤ j ∧ j < i + 0 ∧ j < ws.length) := by omega
      rw [setRange, if_neg h]
  | succ n ih =>
      intro ws i j
      rw [setRange, ih, List.length_set, getD_set]
      by_cases hij : i = j
      · subst hij
        split_ifs <;> first | rfl | omega
      · split_ifs <;> first | rfl | omega

/-- shiftLoop keeps the length. -/
theorem shiftLoop_length :
    ∀ (n : Nat) (ws : List Int) (i : Nat), (shiftLoop ws i n).length = ws.length := by
  intro n
  induction n with
  | zero => intro ws i; rfl
  | succ n ih => intro ws i; rw [shiftLoop, ih, List.length_set]

/-- Effect of shiftLoop on a single position: inside the shifted window each
word takes the value of its right neighbour in the original list. -/
theorem shiftLoop_getD :
    ∀ (n : Nat) (ws : List Int) (i j : Nat),
      (shiftLoop ws i n).getD j 0 =
        if i ≤ j ∧ j < i + n ∧ j < ws.length then ws.getD (j + 1) 0 else ws.getD j 0 := by
  intro n
  induction n with
  | zero =>
      intro ws i j
      have h : ¬ (i ≤ j ∧ j < i + 0 ∧ j < ws.length) := by omega
      rw [shiftLoop, if_neg h]
  | succ n ih =>
      intro ws i j
      rw [shiftLoop, ih, List.length_set, getD_set, getD_set]
      by_cases hij : i = j
      · subst hij
        split_ifs <;> first | rfl | omega
      · split_ifs <;> first | rfl | omega

/-- copyBytes keeps the length of the destination. -/
theorem copyBytes_length (src : List Nat) :
    ∀ (n : Nat) (dst : List Nat) (srcOff dstOff : Nat),
      (copyBytes dst src srcOff dstOff n).length = dst.length := by
  intro n
  induction n with
  | zero => intro dst srcOff dstOff; rfl
  | succ n ih => intro dst srcOff dstOff; rw [copyBytes, ih, List.length_set]

/-- Reading a byte list after a single update. -/
theorem getDNat_set (ws : List Nat) (i : Nat) (v : Nat) (j : Nat) :
    (ws.set i v).getD j 0 = if i = j ∧ j < ws.length then v else ws.getD j 0 := by
  by_cases hij : i = j
  · subst hij
    by_cases hlen : i < ws.length
    · simp [List.getD_eq_getElem?_getD, List.getElem?_set, hlen]
    · have hn : ws[i]? = none := by
        rw [List.getElem?_eq_none_iff]
        omega
      simp [List.getD_eq_getElem?_getD, List.getElem?_set, hlen, hn]
  · simp [List.getD_eq_getElem?_getD, List.getElem?_set_ne hij, hij]

/-- Effect of copyBytes on a single position of the destination. -/
theorem copyBytes_getD (src : List Nat) :
    ∀ (n : Nat) (dst : List Nat) (srcOff dstOff j : Nat),
      (copyBytes dst src srcOff dstOff n).getD j 0 =
        if dstOff ≤ j ∧ j < dstOff + n ∧ j < dst.length then src.getD (srcOff + (j - dstOff)) 0
        else dst.getD j 0 := by
  intro n
  induction n with
  | zero =>
      intro dst srcOff dstOff j
      have h : ¬ (dstOff ≤ j ∧ j < dstOff + 0 ∧ j < dst.length) := by omega
      rw [copyBytes, if_neg h]
  | succ n ih =>
      intro dst srcOff dstOff j
      rw [copyBytes, ih, List.length_set, getDNat_set]
      split_ifs <;> first | rfl | omega | (congr 1; omega)

/-- copyArgs starting past a head element. -/
theorem copyArgs_cons (w : Int) (ws : List Int) :
    ∀ (as2 : List Int) (i : Nat), copyArgs (w :: ws) as2 (i + 1) = w :: copyArgs ws as2 i := by
  intro as2
  induction as2 generalizing w ws with
  | nil => intro i; rfl
  | cons a rest ih =>
      intro i
      show copyArgs ((w :: ws).set (i + 1) a) rest (i + 1 + 1) = _
      have h1 : (w :: ws).set (i + 1) a = w :: ws.set i a := rfl
      rw [h1, ih]
      rfl

/-- Copying a full argument list over a replicated buffer yields the
arguments. -/
theorem copyArgs_replicate (v : Int) :
    ∀ (as2 : List Int), copyArgs (List.replicate as2.length v) as2 0 = as2 := by
  intro as2
  induction as2 with
  | nil => rfl
  | cons a rest ih =>
      show copyArgs ((List.replicate (rest.length + 1) v).set 0 a) rest (0 + 1) = a :: rest
      have h1 : (List.replicate (rest.length + 1) v).set 0 a
          = a :: List.replicate rest.length v := rfl
      rw [h1, copyArgs_cons, ih]

/-- Data words of the list built by primMakeList. -/
theorem primMakeList_words (args : List Int) :
    (primMakeList args).words = int2obj args.length :: args := by
  unfold primMakeList
  have h1 : (List.replicate (args.length + 1) falseObj).set 0 (int2obj args.length)
      = int2obj args.length :: List.replicate args.length falseObj := rfl
  have h2 := copyArgs_cons (int2obj args.length) (List.replicate args.length falseObj) args 0
  simp only [Nat.zero_add] at h2
  rw [h1, h2, copyArgs_replicate]

/-- Little-endian 16-bit fields round-trip: recombining the two bytes the
encoder writes recovers the value. -/
theorem lowHigh_roundtrip (n : Nat) (h : n < 65536) :
    (((n >>> 8) &&& 255) <<< 8) ||| (n &&& 255) = n := by
  have h255 : (255 : Nat) = 2 ^ 8 - 1 := by norm_num
  rw [h255, Nat.and_pow_two_sub_one_eq_mod, Nat.and_pow_two_sub_one_eq_mod,
      Nat.shiftRight_eq_div_pow, Nat.shiftLeft_eq]
  have h2 : n / 2 ^ 8 % 2 ^ 8 = n / 2 ^ 8 := Nat.mod_eq_of_lt (by omega)
  rw [h2, Nat.mul_comm]
  rw [← Nat.mul_add_lt_is_or (Nat.mod_lt n (by norm_num)) (n / 2 ^ 8)]
  exact Nat.div_add_mod n (2 ^ 8)

/-! ### List invariant infrastructure -/

/-- Builder for listInv from an explicit count value. -/
theorem listInv_intro (l2 : ListObj) (c : Int) (hc : 0 ≤ c)
    (h0 : FIELD l2 0 = int2obj c)
    (hlen : c + 1 ≤ (l2.words.length : Int))
    (hsuf : ∀ i : Nat, i < l2.words.length → c < (i : Int) → FIELD l2 i = zeroObj) :
    listInv l2 := by
  refine ⟨?_, ?_, ?_, ?_⟩
  · rw [h0]; exact isInt_int2obj c
  · rw [h0, obj2int_int2obj]; exact hc
  · rw [h0, obj2int_int2obj]; exact hlen
  · intro i hi hci
    rw [h0, obj2int_int2obj] at hci
    exact hsuf i hi hci

/-- Eliminator for listInv yielding an explicit count value. -/
theorem listInv_elim (l : ListObj) (hl : listInv l) :
    ∃ c : Int, 0 ≤ c ∧ FIELD l 0 = int2obj c ∧ c + 1 ≤ (l.words.length : Int) ∧
      ∀ i : Nat, i < l.words.length → c < (i : Int) → FIELD l i = zeroObj := by
  obtain ⟨hint, h0, hlen, hsuf⟩ := hl
  exact ⟨obj2int (FIELD l 0), h0, (int2obj_obj2int _ hint).symm, hlen, hsuf⟩

/-- Shape of a freshly made growable list of a given capacity: capacity + 1
data words, field 0 holding the tagged capacity (this is the value the code
stores as the item count), and every one of the capacity slots holding the
tagged zero. -/
def newArrayShape (l : ListObj) (cap : Int) : Prop :=
  l.words.length = cap.toNat + 1 ∧
  FIELD l 0 = int2obj cap ∧
  ∀ i : Nat, 1 ≤ i → (i : Int) ≤ cap → FIELD l i = int2obj 0

/-- The word list built from a capacity c has the fresh-list shape. -/
theorem newArrayShape_build (c : Int) (hc : 0 ≤ c) :
    newArrayShape ⟨(List.replicate (c.toNat + 1) (int2obj 0)).set 0 (int2obj c)⟩ c := by
  have h1 : (List.replicate (c.toNat + 1) (int2obj 0)).set 0 (int2obj c)
      = int2obj c :: List.replicate c.toNat (int2obj 0) := rfl
  refine ⟨?_, ?_, ?_⟩
  · rw [h1]
    simp [List.length_replicate]
  · rw [show FIELD ⟨(List.replicate (c.toNat + 1) (int2obj 0)).set 0 (int2obj c)⟩ 0
        = ((List.replicate (c.toNat + 1) (int2obj 0)).set 0 (int2obj c)).getD 0 0 from rfl, h1]
    rfl
  · intro i h1i h2i
    show ((List.replicate (c.toNat + 1) (int2obj 0)).set 0 (int2obj c)).getD i 0 = int2obj 0
    rw [h1]
    obtain ⟨k, rfl⟩ : ∃ k, i = k + 1 := ⟨i - 1, by omega⟩
    rw [List.getD_cons_succ, getD_replicate, if_pos (by omega)]

/-- primNewArray always yields the fresh-list shape for some capacity of at
least 2. -/
theorem primNewArray_shape (args : List Int) :
    ∃ c : Int, 2 ≤ c ∧ newArrayShape (primNewArray args) c := by
  unfold primNewArray
  rcases args with _ | ⟨a, rest⟩
  · exact ⟨2, by omega, by simpa using newArrayShape_build 2 (by omega)⟩
  · by_cases ha : isInt a
    · refine ⟨if obj2int a < 2 then 2 else obj2int a, by split_ifs <;> omega, ?_⟩
      have hb := newArrayShape_build (if obj2int a < 2 then 2 else obj2int a)
        (by split_ifs <;> omega)
      simpa [ha] using hb
    · exact ⟨2, by omega, by simpa [ha] using newArrayShape_build 2 (by omega)⟩

/-- A fresh list satisfies the invariant (count equal to capacity, empty
zero suffix). -/
theorem newArrayShape_listInv (l : ListObj) (c : Int) (hc : 0 ≤ c)
    (h : newArrayShape l c) : listInv l := by
  obtain ⟨hlen, h0, hslots⟩ := h
  refine listInv_intro l c hc h0 (by rw [hlen]; push_cast; omega) ?_
  intro i hi hci
  rw [hlen] at hi
  omega

/-- primMakeList establishes the invariant. -/
theorem primMakeList_listInv (args : List Int) : listInv (primMakeList args) := by
  refine listInv_intro (primMakeList args) args.length (by omega) ?_ ?_ ?_
  · rw [show FIELD (primMakeList args) 0 = (primMakeList args).words.getD 0 0 from rfl,
        primMakeList_words]
    rfl
  · rw [show (primMakeList args).words = (primMakeList args).words from rfl,
        primMakeList_words]
    simp
  · intro i hi hci
    rw [primMakeList_words] at hi
    simp only [List.length_cons] at hi
    omega

/-- primNewArray establishes the invariant. -/
theorem primNewArray_listInv (args : List Int) : listInv (primNewArray args) := by
  obtain ⟨c, hc, hshape⟩ := primNewArray_shape args
  exact newArrayShape_listInv _ c (by omega) hshape

/-- Setting a field in 1 .. count keeps the invariant. -/
theorem listInv_set_mid (l : ListObj) (k : Nat) (v : Int) (c : Int)
    (hc : 0 ≤ c) (h0 : FIELD l 0 = int2obj c)
    (hlen : c + 1 ≤ (l.words.length : Int))
    (hsuf : ∀ i : Nat, i < l.words.length → c < (i : Int) → FIELD l i = zeroObj)
    (hk1 : 1 ≤ k) (hk2 : (k : Int) ≤ c) :
    listInv ⟨l.words.set k v⟩ := by
  refine listInv_intro _ c hc ?_ ?_ ?_
  · show (l.words.set k v).getD 0 0 = int2obj c
    rw [getD_set, if_neg (by omega)]
    exact h0
  · rw [show (⟨l.words.set k v⟩ : ListObj).words = l.words.set k v from rfl, List.length_set]
    exact hlen
  · intro i hi hci
    rw [show (⟨l.words.set k v⟩ : ListObj).words = l.words.set k v from rfl,
        List.length_set] at hi
    show (l.words.set k v).getD i 0 = zeroObj
    rw [getD_set, if_neg (by omega)]
    exact hsuf i hi hci

/-- primArrayAtPut keeps the invariant, for every index argument except the
string "last" applied to an empty list (there the code writes the value
into field 0, the count word). -/
theorem primArrayAtPut_listInv (l : ListObj) (idx : Arg) (value : Int)
    (hl : listInv l)
    (hlast : idx = Arg.str "last" → 1 ≤ obj2int (FIELD l 0)) :
    listInv (primArrayAtPut idx l value).1 := by
  obtain ⟨c, hc, h0, hlen, hsuf⟩ := listInv_elim l hl
  have hcount : obj2int (FIELD l 0) = c := by rw [h0, obj2int_int2obj]
  have hclampF : ¬ ((l.words.length : Int) ≤ c) := by omega
  rcases idx with n | s | _
  · simp only [primArrayAtPut, hcount, hclampF, if_false]
    rw [if_neg (show ¬ (Arg.int n = Arg.str "all") by simp)]
    by_cases hr : n < 1 ∨ c < n
    · rw [if_pos hr]
      exact hl
    · rw [if_neg hr]
      push_neg at hr
      exact listInv_set_mid l n.toNat value c hc h0 hlen hsuf (by omega) (by omega)
  · by_cases hall : s = "all"
    · subst hall
      simp only [primArrayAtPut, hcount, hclampF, if_false, if_true]
      refine listInv_intro _ c hc ?_ ?_ ?_
      · show (setRange l.words value 1 c.toNat).getD 0 0 = int2obj c
        rw [setRange_getD, if_neg (by omega)]
        exact h0
      · rw [show (⟨setRange l.words value 1 c.toNat⟩ : ListObj).words
            = setRange l.words value 1 c.toNat from rfl, setRange_length]
        exact hlen
      · intro i hi hci
        rw [show (⟨setRange l.words value 1 c.toNat⟩ : ListObj).words
            = setRange l.words value 1 c.toNat from rfl, setRange_length] at hi
        show (setRange l.words value 1 c.toNat).getD i 0 = zeroObj
        rw [setRange_getD, if_neg (by omega)]
        exact hsuf i hi hci
    · by_cases hlast2 : s = "last"
      · subst hlast2
        have hc1 : 1 ≤ c := by
          have h := hlast rfl
          omega
        simp only [primArrayAtPut, hcount, hclampF, if_false, if_true]
        exact listInv_set_mid l c.toNat value c hc h0 hlen hsuf (by omega) (by omega)
      · simp only [primArrayAtPut, hcount, hclampF, hall, hlast2, if_false, if_true]
        rw [if_neg (show ¬ (Arg.str s = Arg.str "all") by simp [hall])]
        exact hl
  · simp only [primArrayAtPut, hcount, hclampF, if_false]
    rw [if_neg (show ¬ (Arg.other = Arg.str "all") by simp)]
    exact hl

/-- primListDelete keeps the invariant; in particular the freed slots hold
tagged zero afterwards. -/
theorem primListDelete_listInv (l : ListObj) (idx : Arg) (hl : listInv l) :
    listInv (primListDelete idx l).1 := by
  obtain ⟨c, hc, h0, hlen, hsuf⟩ := listInv_elim l hl
  have hcount : obj2int (FIELD l 0) = c := by rw [h0, obj2int_int2obj]
  have hclampF : ¬ ((l.words.length : Int) ≤ c) := by omega
  rcases idx with n | s | _
  · simp only [primListDelete, hcount, hclampF, if_false, if_true]
    rw [if_neg (show ¬ (Arg.int n = Arg.str "all") by simp),
        if_neg (show ¬ (Arg.int n = Arg.str "last") by simp)]
    by_cases hr : n < 1 ∨ c < n
    · rw [if_pos hr]
      exact hl
    · rw [if_neg hr]
      push_neg at hr
      refine listInv_intro _ (c - 1) (by omega) ?_ ?_ ?_
      · show (((shiftLoop l.words n.toNat (c - n).toNat).set c.toNat zeroObj).set 0
            (int2obj (c - 1))).getD 0 0 = int2obj (c - 1)
        rw [getD_set,
            if_pos ⟨rfl, by rw [List.length_set, shiftLoop_length]; omega⟩]
      · rw [show (⟨((shiftLoop l.words n.toNat (c - n).toNat).set c.toNat zeroObj).set 0
            (int2obj (c - 1))⟩ : ListObj).words
            = ((shiftLoop l.words n.toNat (c - n).toNat).set c.toNat zeroObj).set 0
              (int2obj (c - 1)) from rfl,
            List.length_set, List.length_set, shiftLoop_length]
        omega
      · intro i hi hci
        rw [show (⟨((shiftLoop l.words n.toNat (c - n).toNat).set c.toNat zeroObj).set 0
            (int2obj (c - 1))⟩ : ListObj).words
            = ((shiftLoop l.words n.toNat (c - n).toNat).set c.toNat zeroObj).set 0
              (int2obj (c - 1)) from rfl,
            List.length_set, List.length_set, shiftLoop_length] at hi
        show (((shiftLoop l.words n.toNat (c - n).toNat).set c.toNat zeroObj).set 0
            (int2obj (c - 1))).getD i 0 = zeroObj
        rw [getD_set, if_neg (by omega), getD_set]
        by_cases hic : c.toNat = i
        · rw [if_pos ⟨hic, by rw [shiftLoop_length]; omega⟩]
        · rw [if_neg (by simp [hic]), shiftLoop_getD, if_neg (by omega)]
          exact hsuf i hi (by omega)
  · by_cases hall : s = "all"
    · subst hall
      simp only [primListDelete, hcount, hclampF, if_false, if_true]
      refine listInv_intro _ 0 (by omega) ?_ ?_ ?_
      · show (setRange l.words zeroObj 0 (c + 1).toNat).getD 0 0 = int2obj 0
        rw [setRange_getD, if_pos ⟨by omega, by omega, by omega⟩]
        rfl
      · rw [show (⟨setRange l.words zeroObj 0 (c + 1).toNat⟩ : ListObj).words
            = setRange l.words zeroObj 0 (c + 1).toNat from rfl, setRange_length]
        omega
      · intro i hi hci
        rw [show (⟨setRange l.words zeroObj 0 (c + 1).toNat⟩ : ListObj).words
            = setRange l.words zeroObj 0 (c + 1).toNat from rfl, setRange_length] at hi
        show (setRange l.words zeroObj 0 (c + 1).toNat).getD i 0 = zeroObj
        rw [setRange_getD]
        by_cases hizone : i < (c + 1).toNat
        · rw [if_pos ⟨by omega, by omega, hi⟩]
        · rw [if_neg (by omega)]
          exact hsuf i hi (by omega)
    · by_cases hlast2 : s = "last"
      · subst hlast2
        simp only [primListDelete, hcount, hclampF, if_false, if_true]
        rw [if_neg (show ¬ (Arg.str "last" = Arg.str "all") by simp)]
        by_cases hc0 : c = 0
        · rw [if_neg (by simp [hc0])]
          exact hl
        · rw [if_pos hc0]
          refine listInv_intro _ (c - 1) (by omega) ?_ ?_ ?_
          · show ((l.words.set c.toNat zeroObj).set 0 (int2obj (c - 1))).getD 0 0
                = int2obj (c - 1)
            rw [getD_set, if_pos ⟨rfl, by rw [List.length_set]; omega⟩]
          · rw [show (⟨(l.words.set c.toNat zeroObj).set 0 (int2obj (c - 1))⟩
                : ListObj).words
                = (l.words.set c.toNat zeroObj).set 0 (int2obj (c - 1)) from rfl,
                List.length_set, List.length_set]
            omega
          · intro i hi hci
            rw [show (⟨(l.words.set c.toNat zeroObj).set 0 (int2obj (c - 1))⟩
                : ListObj).words
                = (l.words.set c.toNat zeroObj).set 0 (int2obj (c - 1)) from rfl,
                List.length_set, List.length_set] at hi
            show ((l.words.set c.toNat zeroObj).set 0 (int2obj (c - 1))).getD i 0 = zeroObj
            rw [getD_set, if_neg (by omega), getD_set]
            by_cases hic : c.toNat = i
            · rw [if_pos ⟨hic, by omega⟩]
            · rw [if_neg (by simp [hic])]
              exact hsuf i hi (by omega)
      · simp only [primListDelete, hcount, hclampF, if_false, if_true]
        rw [if_neg (show ¬ (Arg.str s = Arg.str "all") by simp [hall]),
            if_neg (show ¬ (Arg.str s = Arg.str "last") by simp [hlast2])]
        exact hl
  · simp only [primListDelete, hcount, hclampF, if_false, if_true]
    rw [if_neg (show ¬ (Arg.other = Arg.str "all") by simp),
        if_neg (show ¬ (Arg.other = Arg.str "last") by simp)]
    exact hl

/-- primListAddLast keeps the invariant, growing the list when the count
has reached the capacity. -/
theorem primListAddLast_listInv (l : ListObj) (item : Int) (hl : listInv l) :
    listInv (primListAddLast item l).1 := by
  obtain ⟨c, hc, h0, hlen, hsuf⟩ := listInv_elim l hl
  have hcount : obj2int (FIELD l 0) = c := by rw [h0, obj2int_int2obj]
  by_cases hfull : (l.words.length : Int) - 1 ≤ c
  · have hceq : c = (l.words.length : Int) - 1 := by omega
    have key : ∀ g : Int, 1 ≤ g →
        listInv ((if c < ((resizeObj l (l.words.length + g.toNat)).words.length : Int) - 1 then
            ((⟨((resizeObj l (l.words.length + g.toNat)).words.set (c + 1).toNat item).set 0
              (int2obj (c + 1))⟩ : ListObj), (none : Option ErrCode))
          else (resizeObj l (l.words.length + g.toNat), none)).1) := by
      intro g hg
      have hres : (resizeObj l (l.words.length + g.toNat)).words
          = l.words ++ List.replicate ((l.words.length + g.toNat) - l.words.length) zeroObj := by
        rw [resizeObj, if_neg (by omega)]
      have hlen2 : (resizeObj l (l.words.length + g.toNat)).words.length
          = l.words.length + g.toNat := by
        rw [hres, List.length_append, List.length_replicate]
        omega
      rw [if_pos (by rw [hlen2]; push_cast; omega)]
      refine listInv_intro _ (c + 1) (by omega) ?_ ?_ ?_
      · show (((resizeObj l (l.words.length + g.toNat)).words.set (c + 1).toNat item).set 0
            (int2obj (c + 1))).getD 0 0 = int2obj (c + 1)
        rw [getD_set, if_pos ⟨rfl, by rw [List.length_set, hlen2]; omega⟩]
      · rw [show (⟨((resizeObj l (l.words.length + g.toNat)).words.set (c + 1).toNat
            item).set 0 (int2obj (c + 1))⟩ : ListObj).words
            = ((resizeObj l (l.words.length + g.toNat)).words.set (c + 1).toNat item).set 0
              (int2obj (c + 1)) from rfl,
            List.length_set, List.length_set, hlen2]
        push_cast
        omega
      · intro i hi hci
        rw [show (⟨((resizeObj l (l.words.length + g.toNat)).words.set (c + 1).toNat
            item).set 0 (int2obj (c + 1))⟩ : ListObj).words
            = ((resizeObj l (l.words.length + g.toNat)).words.set (c + 1).toNat item).set 0
              (int2obj (c + 1)) from rfl,
            List.length_set, List.length_set, hlen2] at hi
        show (((resizeObj l (l.words.length + g.toNat)).words.set (c + 1).toNat item).set 0
            (int2obj (c + 1))).getD i 0 = zeroObj
        rw [getD_set, if_neg (by omega), getD_set, if_neg (by omega), hres,
            getD_append_right _ _ _ (by omega), getD_replicate, if_pos (by omega)]
    simp only [primListAddLast, hcount]
    rw [if_pos hfull]
    have hg0 : 0 ≤ Int.tdiv c 3 := Int.tdiv_nonneg hc (by omega)
    exact key _ (by split_ifs <;> omega)
  · simp only [primListAddLast, hcount]
    rw [if_neg hfull, if_pos (by omega)]
    refine listInv_intro _ (c + 1) (by omega) ?_ ?_ ?_
    · show ((l.words.set (c + 1).toNat item).set 0 (int2obj (c + 1))).getD 0 0
          = int2obj (c + 1)
      rw [getD_set, if_pos ⟨rfl, by rw [List.length_set]; omega⟩]
    · rw [show (⟨(l.words.set (c + 1).toNat item).set 0 (int2obj (c + 1))⟩
          : ListObj).words = (l.words.set (c + 1).toNat item).set 0 (int2obj (c + 1))
          from rfl, List.length_set, List.length_set]
      omega
    · intro i hi hci
      rw [show (⟨(l.words.set (c + 1).toNat item).set 0 (int2obj (c + 1))⟩
          : ListObj).words = (l.words.set (c + 1).toNat item).set 0 (int2obj (c + 1))
          from rfl, List.length_set, List.length_set] at hi
      show ((l.words.set (c + 1).toNat item).set 0 (int2obj (c + 1))).getD i 0 = zeroObj
      rw [getD_set, if_neg (by omega), getD_set, if_neg (by omega)]
      exact hsuf i hi (by omega)

/-- C1, counterexample.  The claim states that an allocation request that
would exhaust the arena returns the nil sentinel without corrupting the free
pointer.  On the concrete 4-word arena heapA (freeStart = 16, memEnd = 20),
requesting 10 data words instead panics ("Out of memory!", an infinite halt
loop), and at that moment the free pointer has already been advanced to 27,
past memEnd and different from its prior value 16. -/
theorem newObj_exhaustion_nil_cex :
    allocPanicked (newObj 1 10 0 heapA) = true ∧
    allocFree (newObj 1 10 0 heapA) = 27 ∧ (27 : Nat) ≠ 16 := by
  refine ⟨rfl, rfl, by decide⟩

/-- C1, amended.  Whenever advancing the free pointer by
HEADER_WORDS + wordCount reaches or passes memEnd, newObj does not return an
object: it panics with "Out of memory!" after the free pointer has already
been advanced (so the failed allocation leaves the free pointer changed,
past the end of the arena). -/
theorem newObj_exhaustion_panics (classID wordCount : Nat) (fill : Int) (h : Heap)
    (hx : h.memEnd ≤ h.freeStart + (HEADER_WORDS + wordCount)) :
    newObj classID wordCount fill h =
      .panic "Out of memory!" { h with freeStart := h.freeStart + (HEADER_WORDS + wordCount) } ∧
    allocFree (newObj classID wordCount fill h) = h.freeStart + (HEADER_WORDS + wordCount) := by
  have he : newObj classID wordCount fill h =
      .panic "Out of memory!" { h with freeStart := h.freeStart + (HEADER_WORDS + wordCount) } := by
    unfold newObj
    rw [if_pos hx]
  exact ⟨he, by rw [he]; rfl⟩

/-- C1, witness for the amended theorem at the concrete arena heapA. -/
theorem newObj_exhaustion_panics_witness :
    newObj 1 10 0 heapA =
      .panic "Out of memory!" { heapA with freeStart := heapA.freeStart + (HEADER_WORDS + 10) } ∧
    allocFree (newObj 1 10 0 heapA) = heapA.freeStart + (HEADER_WORDS + 10) :=
  newObj_exhaustion_panics 1 10 0 heapA (by decide)

/-- C9.  connectionStatus returns exactly one of the three status strings:
"not connected" precisely when the serial port is absent or closed, and
otherwise "connected" precisely when the last ping echo arrived within the
2200 ms window (2000 ms ping interval plus 200 ms grace) and
"board not responding" precisely otherwise. -/
theorem connectionStatus_trichotomy (now : Int) (st : PingState) :
    ((connectionStatus now st).1 = "not connected" ∨
     (connectionStatus now st).1 = "connected" ∨
     (connectionStatus now st).1 = "board not responding") ∧
    ((connectionStatus now st).1 = "not connected" ↔ st.portOpen = false) ∧
    (st.portOpen = true →
      ((connectionStatus now st).1 = "connected" ↔
        now - st.lastPingRecvMSecs.getD 0 < 2200)) ∧
    (st.portOpen = true →
      ((connectionStatus now st).1 = "board not responding" ↔
        2200 ≤ now - st.lastPingRecvMSecs.getD 0)) := by
  obtain ⟨ps, lp, portOpen⟩ := st
  cases portOpen
  · simp [connectionStatus]
  · by_cases hlt : now - lp.getD 0 < 2200 <;>
      (simp [connectionStatus, hlt]; all_goals omega)

/-- C9, witness: with an open port and a ping echo 100 ms ago, the status is
"connected"; the other conjuncts are instantiated at the same state. -/
theorem connectionStatus_trichotomy_witness :
    (connectionStatus 1000 ⟨some 0, some 900, true⟩).1 = "connected" :=
  ((connectionStatus_trichotomy 1000 ⟨some 0, some 900, true⟩).2.2.1 rfl).2 (by decide)

/-- C2, counterexample.  The claim states that the item count (data word 0)
of the list newArray returns is 0; calling primNewArray with capacity
argument 5 instead stores the tagged capacity 5 there. -/
theorem primNewArray_count_cex :
    FIELD (primNewArray [int2obj 5]) 0 = int2obj 5 ∧ int2obj 5 ≠ int2obj 0 := by
  constructor <;> decide

/-- C2, amended.  primNewArray returns a list whose reserved capacity (data
word count minus one) is max(2, capacityOpt) — capacity 2 when the argument
is absent or not an integer — whose capacity slots are all tagged zero, and
whose item count (data word 0) equals the tagged capacity, not 0. -/
theorem primNewArray_capacity_count (a : Int) (rest : List Int) :
    (isInt a = true → newArrayShape (primNewArray (a :: rest)) (max 2 (obj2int a))) ∧
    (isInt a = false → newArrayShape (primNewArray (a :: rest)) 2) ∧
    newArrayShape (primNewArray []) 2 := by
  refine ⟨?_, ?_, ?_⟩
  · intro ha
    have he : (if obj2int a < 2 then 2 else obj2int a) = max 2 (obj2int a) := by
      split_ifs <;> omega
    have h := newArrayShape_build (if obj2int a < 2 then 2 else obj2int a)
      (by split_ifs <;> omega)
    rw [he] at h
    simpa [primNewArray, ha, he] using h
  · intro ha
    simpa [primNewArray, ha] using newArrayShape_build 2 (by omega)
  · simpa [primNewArray] using newArrayShape_build 2 (by omega)

/-- C2, witness for the amended theorem: primNewArray with the tagged
argument 5 yields the fresh-list shape of capacity 5. -/
theorem primNewArray_capacity_count_witness :
    newArrayShape (primNewArray [int2obj 5]) (max 2 (obj2int (int2obj 5))) :=
  (primNewArray_capacity_count (int2obj 5) []).1 (by decide)

/-- C5, counterexample.  The claim states the invariant (count within
capacity, zero suffix) is kept by every list operation including fill.  The
list built by makeList(5) and then delete(1) satisfies the invariant (count
0, capacity 1, slot 1 zeroed), but filling it with the tagged 7 writes 7
into the reserve slot beyond the count, violating the zero-suffix
invariant. -/
theorem listInv_fill_cex :
    listInv (primListDelete (Arg.int 1) (primMakeList [int2obj 5])).1 ∧
    ¬ listInv (primArrayFill (primListDelete (Arg.int 1) (primMakeList [int2obj 5])).1
        (int2obj 7)) := by
  constructor <;> decide

/-- C5, amended.  The invariant 0 <= count <= capacity together with the
zero suffix beyond the count is established by makeList and newArray and
kept by atPut (except for the index "last" on an empty list, where the code
overwrites the count word itself), by addLast and by delete; in particular
it holds immediately after every delete.  It is not kept by fill, which
overwrites every capacity slot. -/
theorem listInv_preservation (l : ListObj) (hl : listInv l) :
    (∀ args : List Int, listInv (primMakeList args)) ∧
    (∀ args : List Int, listInv (primNewArray args)) ∧
    (∀ idx value, (idx = Arg.str "last" → 1 ≤ obj2int (FIELD l 0)) →
      listInv (primArrayAtPut idx l value).1) ∧
    (∀ item, listInv (primListAddLast item l).1) ∧
    (∀ idx, listInv (primListDelete idx l).1) :=
  ⟨primMakeList_listInv, primNewArray_listInv,
   fun idx value h => primArrayAtPut_listInv l idx value hl h,
   fun item => primListAddLast_listInv l item hl,
   fun idx => primListDelete_listInv l idx hl⟩

/-- C5, witness: the invariant of makeList(4) is kept by an in-range atPut
(the hypothesis on the "last" index is discharged vacuously). -/
theorem listInv_preservation_witness :
    listInv (primArrayAtPut (Arg.int 1) (primMakeList [int2obj 4]) (int2obj 9)).1 :=
  (listInv_preservation (primMakeList [int2obj 4]) (by decide)).2.2.1 (Arg.int 1) (int2obj 9)
    (fun h => absurd h (by decide))

/-- C7, counterexample.  The claim states at(2, "héllo") is the
single-codepoint string "é" (bytes 0xC3 0xA9); the code instead returns a
single-byte string holding only the lead byte 0xC3, because primArrayAt
indexes strings by bytes and extracts exactly one byte. -/
theorem stringAt_single_byte_cex :
    primArrayAtString (Arg.int 2) helloBytes 0 = Except.ok [0xC3] ∧
    Except.ok (ε := ErrCode) [0xC3, 0xA9] ≠ Except.ok [0xC3] := by
  constructor
  · rfl
  · simp

/-- C7, amended.  length on strings is the UTF-8 codepoint count computed
by iterating nextUTF8 — 5 for "héllo", whose byte count is 6 — but at(i,
string) indexes bytes, an integer index i in 1 .. byte count returning the
single-byte string holding byte i - 1; at(2, "héllo") is the one-byte
string 0xC3. -/
theorem utf8_length_and_byte_at (s : List Nat) (i : Int) (rnd : Nat)
    (h1 : 1 ≤ i) (h2 : i ≤ (stringSize s : Int)) :
    primLengthString helloBytes = int2obj 5 ∧
    countUTF8 helloBytes = 5 ∧
    helloBytes.length = 6 ∧
    primArrayAtString (Arg.int i) s rnd = Except.ok [s.getD (i.toNat - 1) 0] ∧
    primArrayAtString (Arg.int 2) helloBytes rnd = Except.ok [0xC3] := by
  refine ⟨by decide, by decide, by decide, ?_, by rfl⟩
  simp only [primArrayAtString]
  rw [if_neg (by omega)]
  have hk : i.toNat - 1 < s.length := by
    unfold stringSize at h2
    omega
  unfold newStringFromBytes
  rw [List.drop_eq_getElem_cons hk]
  rw [show List.take 1 (s[i.toNat - 1] :: List.drop (i.toNat - 1 + 1) s)
      = [s[i.toNat - 1]] from rfl]
  rw [List.getD_eq_getElem s 0 hk]

/-- C7, witness for the amended theorem at "héllo" and index 2. -/
theorem utf8_length_and_byte_at_witness :
    primArrayAtString (Arg.int 2) helloBytes 0
      = Except.ok [helloBytes.getD ((2 : Int).toNat - 1) 0] :=
  (utf8_length_and_byte_at helloBytes 2 0 (by decide) (by decide)).2.2.2.1

/-- C3, counterexample.  The claim states that junk bytes before a valid
frame are discarded and the subsequent frame is dispatched.  With the junk
bytes 0 255 66 followed by the complete valid short frame 250 26 0 in the
receive buffer, processMessages2 instead discards the entire buffer,
dispatching nothing: the buffered valid frame is lost. -/
theorem processMessages2_discard_cex :
    processMessages2 (some [0, 255, 66, 250, 26, 0]) ⟨[], []⟩ = ⟨[], []⟩ ∧
    ([] : List (List Nat)) ≠ [[250, 26, 0]] := by
  constructor <;> decide

/-- C3, amended.  On a buffer of at least 3 bytes headed by a byte that is
neither 250 nor 251, processMessages2 discards the whole receive buffer —
including any complete valid frame already buffered behind the junk — and
dispatches nothing; a valid frame is dispatched once it arrives at the
head of the buffer after the discard. -/
theorem processMessages2_resync (st : HostState) (s : List Nat) :
    (3 ≤ (st.recvBuf ++ s).length →
      (st.recvBuf ++ s).getD 0 0 ≠ 250 →
      (st.recvBuf ++ s).getD 0 0 ≠ 251 →
      processMessages2 (some s) st = ⟨[], st.dispatched⟩) ∧
    (∀ op cid rest2, st.recvBuf ++ s = 250 :: op :: cid :: rest2 →
      processMessages2 (some s) st = ⟨rest2, st.dispatched ++ [[250, op, cid]]⟩) := by
  constructor
  · intro h3 h250 h251
    simp only [processMessages2]
    rw [if_neg (by omega), if_neg h250, if_neg h251]
  · intro op cid rest2 heq
    simp only [processMessages2, heq, List.getD_cons_zero, List.length_cons, if_true]
    rfl

/-- C3, witness: a buffer holding only the junk bytes 0 1 2 is discarded
whole, and the valid frame 250 26 0 arriving afterwards is dispatched. -/
theorem processMessages2_resync_witness :
    processMessages2 (some [0, 1, 2]) ⟨[], []⟩ = ⟨[], []⟩ ∧
    processMessages2 (some [250, 26, 0]) ⟨[], []⟩ = ⟨[], [[250, 26, 0]]⟩ :=
  ⟨(processMessages2_resync ⟨[], []⟩ [0, 1, 2]).1 (by decide) (by decide) (by decide),
   (processMessages2_resync ⟨[], []⟩ [250, 26, 0]).2 26 0 [] rfl⟩

/-- C4, counterexample.  The claim states a first-saved block gets an id
distinct from all ids currently assigned, ids being reused only after
deleteAllCode.  Save block 0 (id 0) and block 1 (id 1), delete block 0,
then save the new block 2: chunkIdFor assigns it id = count chunkIDs = 1,
which block 1 still holds, without any deleteAllCode. -/
theorem chunkIdFor_reuse_cex :
    (chunkIdFor 2 (deleteChunkForBlock 0 (chunkIdFor 1 (chunkIdFor 0 []).2).2)).1 = 1 ∧
    dictGet (chunkIdFor 2 (deleteChunkForBlock 0 (chunkIdFor 1 (chunkIdFor 0 []).2).2)).2 1
      = some 1 ∧
    dictGet (chunkIdFor 2 (deleteChunkForBlock 0 (chunkIdFor 1 (chunkIdFor 0 []).2).2)).2 2
      = some 1 ∧
    (1 : Nat) ≠ 2 := by
  refine ⟨by decide, by decide, by decide, by decide⟩

/-- Sequential-ids invariant of a dictionary built only by saves: the ids,
in insertion order, are exactly 0, 1, 2, ... -/
def idsSequential (d : List (Nat × Nat)) : Prop :=
  d.map Prod.snd = List.range d.length

/-- One chunkIdFor step keeps the sequential-ids invariant. -/
theorem chunkIdFor_step_sequential (b : Nat) (d : List (Nat × Nat))
    (h : idsSequential d) : idsSequential (chunkIdFor b d).2 := by
  unfold chunkIdFor
  cases hg : dictGet d b with
  | some cid => simpa using h
  | none =>
      simp only []
      unfold idsSequential at h ⊢
      simp [List.map_append, h, List.range_succ]

/-- Saving any sequence of blocks keeps the sequential-ids invariant. -/
theorem saveBlocks_sequential (bs : List Nat) :
    ∀ d, idsSequential d → idsSequential (saveBlocks bs d) := by
  induction bs with
  | nil => intro d h; exact h
  | cons b rest ih =>
      intro d h
      exact ih _ (chunkIdFor_step_sequential b d h)

/-- C4, amended.  In a save-only history (no per-block deletes), a block
saved for the first time receives id = count chunkIDs, which is distinct
from every id currently assigned; after a per-block delete the freshly
assigned id can instead collide with an id still held by another block. -/
theorem chunkIdFor_fresh_sequential (bs : List Nat) (b : Nat)
    (hnew : dictGet (saveBlocks bs []) b = none) :
    (chunkIdFor b (saveBlocks bs [])).1 = (saveBlocks bs []).length ∧
    ∀ p ∈ saveBlocks bs [], p.2 ≠ (chunkIdFor b (saveBlocks bs [])).1 := by
  have hseq : idsSequential (saveBlocks bs []) := saveBlocks_sequential bs [] rfl
  have hfst : (chunkIdFor b (saveBlocks bs [])).1 = (saveBlocks bs []).length := by
    simp [chunkIdFor, hnew]
  refine ⟨hfst, ?_⟩
  intro p hp
  rw [hfst]
  have hmem : p.2 ∈ List.range (saveBlocks bs []).length := by
    rw [← hseq]
    exact List.mem_map_of_mem Prod.snd hp
  have := List.mem_range.mp hmem
  omega

/-- C4, witness: after saving blocks 5 and 7 the new block 9 receives the
fresh id 2 = count chunkIDs. -/
theorem chunkIdFor_fresh_sequential_witness :
    (chunkIdFor 9 (saveBlocks [5, 7] [])).1 = (saveBlocks [5, 7] []).length :=
  (chunkIdFor_fresh_sequential [5, 7] 9 (by decide)).1

/-- Reading the left part of an appended byte list. -/
theorem getDNat_append_left (l1 l2 : List Nat) (i : Nat) (h : i < l1.length) :
    (l1 ++ l2).getD i 0 = l1.getD i 0 := by
  simp [List.getD_eq_getElem?_getD, List.getElem?_append_left h]

/-- C6.  Wire round-trip: parsing the byte sequence written by sendMsg
yields the original message back (and leaves exactly the trailing bytes in
the buffer), for short frames and for long frames with any opcode, chunk ID
and body; the little-endian length field written by the encoder and
recombined by the parser equals the body byte count plus one, covering the
trailing 254 terminator byte. -/
theorem wire_roundtrip (m : Msg) (pre : List (List Nat)) (rest : List Nat)
    (hop : m.opcode < 256) (hcid : m.chunkID < 256)
    (hblen : ∀ bl : List Nat, m.body = some bl → bl.length + 1 < 65536) :
    processMessages2 (some (sendMsg m ++ rest)) ⟨[], pre⟩ = ⟨rest, pre ++ [sendMsg m]⟩ ∧
    parseFrame (sendMsg m) = m ∧
    (∀ bl : List Nat, m.body = some bl →
      ((sendMsg m).getD 4 0) <<< 8 ||| (sendMsg m).getD 3 0 = bl.length + 1) := by
  rcases m with ⟨op, cid, body⟩
  cases body with
  | none =>
      refine ⟨?_, rfl, ?_⟩
      · simp only [sendMsg, processMessages2, List.nil_append, List.cons_append,
          List.getD_cons_zero, List.length_cons, if_true]
        rw [if_neg (by omega)]
        rfl
      · intro bl h
        exact Option.noConfusion h
  | some bl =>
      have hb : bl.length + 1 < 65536 := hblen bl rfl
      have key := lowHigh_roundtrip (bl.length + 1) hb
      have hF : (sendMsg ⟨op, cid, some bl⟩).length = 5 + (bl.length + 1) := by
        simp only [sendMsg, List.length_append, List.length_cons, List.length_nil]
        omega
      have e0 : (sendMsg ⟨op, cid, some bl⟩).getD 0 0 = 251 := rfl
      have e1 : (sendMsg ⟨op, cid, some bl⟩).getD 1 0 = op := rfl
      have e2 : (sendMsg ⟨op, cid, some bl⟩).getD 2 0 = cid := rfl
      have e3 : (sendMsg ⟨op, cid, some bl⟩).getD 3 0 = (bl.length + 1) &&& 255 := rfl
      have e4 : (sendMsg ⟨op, cid, some bl⟩).getD 4 0 = ((bl.length + 1) >>> 8) &&& 255 := rfl
      have hdrop5 : (sendMsg ⟨op, cid, some bl⟩).drop 5 = bl ++ [254] := by
        simp only [sendMsg]
        exact List.drop_left
          [251, op, cid, (bl.length + 1) &&& 255, ((bl.length + 1) >>> 8) &&& 255] (bl ++ [254])
      refine ⟨?_, ?_, ?_⟩
      · simp only [processMessages2, List.nil_append]
        have h0 : ((sendMsg ⟨op, cid, some bl⟩) ++ rest).getD 0 0 = 251 := by
          rw [getDNat_append_left _ _ _ (by omega), e0]
        have h3 : ((sendMsg ⟨op, cid, some bl⟩) ++ rest).getD 3 0
            = (bl.length + 1) &&& 255 := by
          rw [getDNat_append_left _ _ _ (by omega), e3]
        have h4 : ((sendMsg ⟨op, cid, some bl⟩) ++ rest).getD 4 0
            = ((bl.length + 1) >>> 8) &&& 255 := by
          rw [getDNat_append_left _ _ _ (by omega), e4]
        rw [if_neg (by rw [List.length_append, hF]; omega), h0,
            if_neg (by decide), if_pos rfl,
            if_neg (by rw [List.length_append, hF]; omega), h4, h3, key,
            if_neg (by rw [List.length_append, hF]; omega),
            List.take_left' hF, List.drop_left' hF]
      · simp only [parseFrame]
        rw [e0, if_neg (by decide), e4, e3, key, e1, e2, hdrop5]
        rw [show bl.length + 1 - 1 = bl.length from rfl, List.take_left]
      · intro bl2 h2
        have hbl : bl2 = bl := by
          injection h2 with h3
          exact h3.symm
        subst hbl
        rw [e4, e3, key]

/-- C6, witness: the long broadcast frame for the body "hi" round-trips,
with one trailing byte left in the buffer. -/
theorem wire_roundtrip_witness :
    processMessages2 (some (sendMsg ⟨27, 0, some [104, 105]⟩ ++ [77])) ⟨[], []⟩ =
      ⟨[77], [] ++ [sendMsg ⟨27, 0, some [104, 105]⟩]⟩ ∧
    parseFrame (sendMsg ⟨27, 0, some [104, 105]⟩) = ⟨27, 0, some [104, 105]⟩ :=
  ⟨(wire_roundtrip ⟨27, 0, some [104, 105]⟩ [] [77] (by decide) (by decide)
      (by intro bl h; injection h with h2; subst h2; decide)).1,
   (wire_roundtrip ⟨27, 0, some [104, 105]⟩ [] [77] (by decide) (by decide)
      (by intro bl h; injection h with h2; subst h2; decide)).2.1⟩

/-- C8.  receiveMakeCodeMessage accepts a packet exactly when its length
byte is at least 12, its protocol byte (offset 1) is 1 and its version byte
(offset 3) is 1; it never touches the heap free pointer (the extracted
string lives in the statically allocated receivedString object); and on
every accepted packet the string stored into receivedString is capped at 19
bytes, NUL-terminated right after its content, its bytes copied from the
typed payload of the packet. -/
theorem receiveMakeCode_spec (rint64 : List Nat → Int) (packet : List Nat)
    (st : RadioMsgState) (hbody : st.stringBody.length = 32) :
    ((receiveMakeCodeMessage rint64 packet st).1 = true ↔
      (12 ≤ packet.getD 0 0 ∧ packet.getD 1 0 = 1 ∧ packet.getD 3 0 = 1)) ∧
    (receiveMakeCodeMessage rint64 packet st).2.heapFreeStart = st.heapFreeStart ∧
    ((receiveMakeCodeMessage rint64 packet st).1 = true →
      (min (makeCodeStringLen packet) 19 ≤ 19 ∧
       (receiveMakeCodeMessage rint64 packet st).2.stringBody.length = 32 ∧
       (receiveMakeCodeMessage rint64 packet st).2.stringBody.getD
         (min (makeCodeStringLen packet) 19) 0 = 0 ∧
       ∀ j : Nat, j < min (makeCodeStringLen packet) 19 →
         (receiveMakeCodeMessage rint64 packet st).2.stringBody.getD j 0 =
           packet.getD (makeCodeStringSrc packet + j) 0)) := by
  by_cases hrej : packet.getD 0 0 < 12 ∨ packet.getD 1 0 ≠ 1 ∨ packet.getD 3 0 ≠ 1
  · have hres : receiveMakeCodeMessage rint64 packet st = (false, st) := by
      simp only [receiveMakeCodeMessage]
      rw [if_pos hrej]
    rw [hres]
    refine ⟨?_, rfl, ?_⟩
    · constructor
      · intro h
        exact absurd h (by simp)
      · intro hc
        exfalso
        omega
    · intro h
      exact absurd h (by simp)
  · have hmin : (if 19 < makeCodeStringLen packet then 19 else makeCodeStringLen packet)
        = min (makeCodeStringLen packet) 19 := by
      split_ifs <;> omega
    have h1 : (receiveMakeCodeMessage rint64 packet st).1 = true := by
      simp only [receiveMakeCodeMessage]
      rw [if_neg hrej]
    have hheap : (receiveMakeCodeMessage rint64 packet st).2.heapFreeStart
        = st.heapFreeStart := by
      simp only [receiveMakeCodeMessage]
      rw [if_neg hrej]
    have hbody2 : (receiveMakeCodeMessage rint64 packet st).2.stringBody =
        (copyBytes (st.stringBody.set 0 0) packet (makeCodeStringSrc packet) 0
          (min (makeCodeStringLen packet) 19)).set (min (makeCodeStringLen packet) 19) 0 := by
      simp only [receiveMakeCodeMessage, hmin]
      rw [if_neg hrej]
    have hlen32 : (receiveMakeCodeMessage rint64 packet st).2.stringBody.length = 32 := by
      rw [hbody2, List.length_set, copyBytes_length, List.length_set, hbody]
    refine ⟨⟨fun _ => by omega, fun _ => h1⟩, hheap, fun _ => ⟨by omega, hlen32, ?_, ?_⟩⟩
    · rw [hbody2, getDNat_set,
          if_pos ⟨rfl, by rw [copyBytes_length, List.length_set, hbody]; omega⟩]
    · intro j hj
      rw [hbody2, getDNat_set, if_neg (by omega), copyBytes_getD,
          if_pos ⟨by omega, by omega, by rw [List.length_set, hbody]; omega⟩]
      rfl

/-- Concrete MakeCode string packet: length byte 16, protocol 1, version 1,
type 2 (string), string length 2, bytes "hi". -/
def pktW : List Nat := [16, 1, 0, 1, 2, 0, 0, 0, 0, 0, 0, 0, 0, 2, 104, 105]

/-- Radio message state used by the C8 witness. -/
def stW : RadioMsgState := ⟨-1, 0, List.replicate 32 7, 0, 5⟩

/-- C8, witness: the concrete string packet is accepted and the heap free
pointer is untouched. -/
theorem receiveMakeCode_spec_witness :
    (receiveMakeCodeMessage (fun _ => 0) pktW stW).1 = true ∧
    (receiveMakeCodeMessage (fun _ => 0) pktW stW).2.heapFreeStart = stW.heapFreeStart :=
  ⟨(receiveMakeCode_spec (fun _ => 0) pktW stW (by decide)).1.mpr (by decide),
   (receiveMakeCode_spec (fun _ => 0) pktW stW (by decide)).2.1⟩

/-- C10.  primSetGroup, primSetPower and primSetChannel leave the radio
configuration unchanged and never call fail when the argument is absent,
is not a tagged integer, or is an integer outside the valid range (group
0..255, power 0..7, channel 0..83); moreover none of the three primitives
ever calls fail on any argument. -/
theorem radio_arg_validation (c0 : RadioConfig) (a : Int) (rest : List Int) :
    (primSetGroup [] c0 = (c0, none) ∧ primSetPower [] c0 = (c0, none) ∧
      primSetChannel [] c0 = (c0, none)) ∧
    (isInt a = false →
      primSetGroup (a :: rest) c0 = (c0, none) ∧
      primSetPower (a :: rest) c0 = (c0, none) ∧
      primSetChannel (a :: rest) c0 = (c0, none)) ∧
    (isInt a = true → (obj2int a < 0 ∨ 255 < obj2int a) →
      primSetGroup (a :: rest) c0 = (c0, none)) ∧
    (isInt a = true → (obj2int a < 0 ∨ 7 < obj2int a) →
      primSetPower (a :: rest) c0 = (c0, none)) ∧
    (isInt a = true → (obj2int a < 0 ∨ 83 < obj2int a) →
      primSetChannel (a :: rest) c0 = (c0, none)) ∧
    (∀ args : List Int, (primSetGroup args c0).2 = none ∧
      (primSetPower args c0).2 = none ∧ (primSetChannel args c0).2 = none) := by
  refine ⟨⟨rfl, rfl, rfl⟩, ?_, ?_, ?_, ?_, ?_⟩
  · intro ha
    refine ⟨?_, ?_, ?_⟩ <;>
      simp [primSetGroup, primSetPower, primSetChannel, ha]
  · intro ha hr
    simp [primSetGroup, ha, setGroup, hr]
  · intro ha hr
    simp [primSetPower, ha, setPower, hr]
  · intro ha hr
    simp [primSetChannel, ha, setChannel, hr]
  · intro args
    rcases args with _ | ⟨x, xs⟩
    · exact ⟨rfl, rfl, rfl⟩
    · refine ⟨?_, ?_, ?_⟩ <;>
        (simp only [primSetGroup, primSetPower, primSetChannel]; split_ifs <;> rfl)

/-- Radio configuration used by the C10 witness. -/
def radioC0 : RadioConfig := ⟨false, 0, 0, 7, false⟩

/-- C10, witness: group 300, power 9 and channel 99 (all out of range) and
the non-integer argument true are silent no-ops. -/
theorem radio_arg_validation_witness :
    primSetGroup [int2obj 300] radioC0 = (radioC0, none) ∧
    primSetPower [int2obj 9] radioC0 = (radioC0, none) ∧
    primSetChannel [int2obj 99] radioC0 = (radioC0, none) ∧
    primSetChannel [trueObj] radioC0 = (radioC0, none) :=
  ⟨(radio_arg_validation radioC0 (int2obj 300) []).2.2.1 (by decide) (by decide),
   (radio_arg_validation radioC0 (int2obj 9) []).2.2.2.1 (by decide) (by decide),
   (radio_arg_validation radioC0 (int2obj 99) []).2.2.2.2.1 (by decide) (by decide),
   ((radio_arg_validation radioC0 trueObj []).2.1 (by decide)).2.2⟩

end SmallVM
